import Mathlib

/-!
Verification of the policy-pilot document pipeline against its specification.

The development shallowly embeds the parts of the code that the claims are
about: the text chunker (`src/utils/text_processing.py`), the circuit breaker
and resilient-call composition (`src/utils/resilience.py`), the embedding
batch pipeline (`src/services/embedding_service.py`), the token-bucket rate
limiter (`src/api/rate_limiter.py`) and the TTL/LRU cache
(`src/services/cache_service.py`).

Strings are modelled as `List Char`, wall-clock instants as exact numbers
(`Int` or `ℚ`), and Python exceptions as `Except` values.  Nondeterministic
inputs of the code (the `uuid4` draws, the memory readings, the outcome of a
wrapped remote call) are passed in explicitly as parameters, so every
definition is executable.
-/

namespace PolicyPilot

instance {ε α : Type} [DecidableEq ε] [DecidableEq α] : DecidableEq (Except ε α)
  | .ok a, .ok b =>
    if h : a = b then .isTrue (h ▸ rfl) else .isFalse (fun hc => h (Except.ok.inj hc))
  | .ok _, .error _ => .isFalse (fun hc => Except.noConfusion hc)
  | .error _, .ok _ => .isFalse (fun hc => Except.noConfusion hc)
  | .error e, .error f =>
    if h : e = f then .isTrue (h ▸ rfl) else .isFalse (fun hc => h (Except.error.inj hc))

/-! ## Text chunker (`TextChunker` in `src/utils/text_processing.py`) -/

/-- Characters matched by the `[.!?]` class of the `sentence_endings`
regular expression `[.!?]+\s+`. -/
def isTerm (c : Char) : Bool := c == '.' || c == '!' || c == '?'

/-- Characters matched by `\s` (Python whitespace, ASCII range). -/
def isWs (c : Char) : Bool :=
  c == ' ' || c == '\t' || c == '\n' || c == '\r' || c == '\x0b' || c == '\x0c'

/-- Length of the maximal prefix of `l` whose characters satisfy `p`. -/
def takeRun (p : Char → Bool) : List Char → Nat
  | [] => 0
  | c :: cs => if p c then takeRun p cs + 1 else 0

/-- End positions (relative to the scan origin `pos`) of the successive
non-overlapping matches of `[.!?]+\s+` found by `re.finditer`: each match is a
maximal run of sentence terminators followed by a maximal run of whitespace.
`fuel` bounds the recursion; `length + 1` is always enough. -/
def scanMatchEnds : Nat → List Char → Nat → List Nat
  | 0, _, _ => []
  | _ + 1, [], _ => []
  | fuel + 1, c :: rest, pos =>
    let t := takeRun isTerm (c :: rest)
    if t = 0 then scanMatchEnds fuel rest (pos + 1)
    else
      let w := takeRun isWs (List.drop t (c :: rest))
      if w = 0 then scanMatchEnds fuel rest (pos + 1)
      else (pos + t + w) :: scanMatchEnds fuel (List.drop (t + w) (c :: rest)) (pos + t + w)

/-- The adjusted end position of a chunk, from
`TextChunker._break_at_sentence_boundary`: search the last 20% of the window
`text[start:e]` for the last `[.!?]+\s+` match and, if found, end the chunk
there; otherwise keep the hard cut `e`.  `int(len(chunk_text) * 0.8)` is
modelled as `4 * len / 5`, which agrees with the float computation for all
realistic window lengths. -/
def breakEnd (text : List Char) (start e : Nat) : Nat :=
  let chunk := (text.drop start).take (e - start)
  let ss := 4 * chunk.length / 5
  let searchText := chunk.drop ss
  match (scanMatchEnds (searchText.length + 1) searchText 0).getLast? with
  | some m => start + ss + m
  | none => e

/-- The chunk spans produced by the `while` loop of
`TextChunker._create_chunks`, as `(start, end)` pairs of the text actually
extracted for each chunk.  The window advances by the *hard* end minus the
overlap even when the emitted chunk was shortened to a sentence boundary; the
trailing-tail chunk is emitted only when its text has a non-whitespace
character.  `fuel` bounds the loop; `length + 1` iterations always suffice
because each round advances `start` by at least `cs - ov ≥ 1`. -/
def chunkSpansAux (text : List Char) (cs ov : Nat) : Nat → Nat → List (Nat × Nat)
  | _, 0 => []
  | start, fuel + 1 =>
    if start < text.length then
      let e := min (start + cs) text.length
      let ae := if e < text.length then breakEnd text start e else e
      let s2 := e - ov
      if text.length - ov ≤ s2 then
        (start, ae) ::
          (if s2 < text.length && (text.drop s2).any (fun c => !isWs c)
           then [(s2, text.length)] else [])
      else (start, ae) :: chunkSpansAux text cs ov s2 fuel
    else []

/-- Chunk spans of `TextChunker._create_chunks`: one chunk for short input,
otherwise the sliding-window loop. -/
def chunkSpans (text : List Char) (cs ov : Nat) : List (Nat × Nat) :=
  if text.length ≤ cs then [(0, text.length)]
  else chunkSpansAux text cs ov 0 (text.length + 1)

/-- Decidable chunk-coverage check: every character position of the input is
inside some chunk span. -/
def coversB (spans : List (Nat × Nat)) (L : Nat) : Bool :=
  (List.range L).all (fun i => spans.any (fun sp => sp.1 ≤ i && i < sp.2))

/-- A produced chunk record, as far as the determinism claim is concerned:
the id built by `TextChunker._create_single_chunk` and the span boundaries. -/
structure ChunkRec where
  chunk_id : String
  start_pos : Nat
  end_pos : Nat
deriving DecidableEq

/-- The chunk records of one `chunk_document` run.  `chunk_id` is
`f"{document_id}_chunk_{chunk_index}_{uuid4().hex[:8]}"`; the random
`uuid4().hex[:8]` draw of the k-th chunk-creation call is supplied as
`uuids k`. -/
def chunkRecords (text : List Char) (cs ov : Nat) (docId : String)
    (uuids : Nat → String) : List ChunkRec :=
  (chunkSpans text cs ov).enum.map
    (fun p => ⟨docId ++ "_chunk_" ++ toString p.1 ++ "_" ++ uuids p.1, p.2.1, p.2.2⟩)

/-- Concrete text for the coverage counterexample: a sentence terminator just
inside the final 20% of the first window. -/
def gapText : List Char := String.toList "aaaaaaaaaaaaaaaa. bbbbbbbb"

/-! ### Chunk-coverage lemmas -/

theorem takeRun_le (p : Char → Bool) : ∀ l : List Char, takeRun p l ≤ l.length := by
  intro l
  induction l with
  | nil => simp [takeRun]
  | cons c cs ih =>
    simp only [takeRun, List.length_cons]
    split <;> omega

/-- Every match end reported by `scanMatchEnds` lies at least two characters
past the scan origin (a match has one terminator and one whitespace character
at minimum) and within the scanned string. -/
theorem scanMatchEnds_bounds (fuel : Nat) :
    ∀ (s : List Char) (pos m : Nat), m ∈ scanMatchEnds fuel s pos →
      pos + 2 ≤ m ∧ m ≤ pos + s.length := by
  induction fuel with
  | zero => intro s pos m hm; simp [scanMatchEnds] at hm
  | succ fuel ih =>
    intro s pos m hm
    match s with
    | [] => simp [scanMatchEnds] at hm
    | c :: rest =>
      simp only [scanMatchEnds] at hm
      split at hm
      · have := ih rest (pos + 1) m hm
        simp only [List.length_cons]
        omega
      · rename_i ht
        split at hm
        · have := ih rest (pos + 1) m hm
          simp only [List.length_cons]
          omega
        · rename_i hw
          have htle : takeRun isTerm (c :: rest) ≤ (c :: rest).length :=
            takeRun_le isTerm (c :: rest)
          have hwle : takeRun isWs (List.drop (takeRun isTerm (c :: rest)) (c :: rest)) ≤
              (c :: rest).length - takeRun isTerm (c :: rest) := by
            have := takeRun_le isWs (List.drop (takeRun isTerm (c :: rest)) (c :: rest))
            simpa [List.length_drop] using this
          rcases List.mem_cons.mp hm with hm | hm
          · subst hm; omega
          · have := ih _ _ m hm
            simp only [List.length_drop] at this
            omega

/-- The adjusted chunk end of `_break_at_sentence_boundary` either keeps the
hard cut, or lands between the start of the final-20% search region plus the
minimal match width and the hard cut. -/
theorem breakEnd_lower (text : List Char) (start e : Nat)
    (hse : start ≤ e) (heL : e ≤ text.length) :
    breakEnd text start e = e ∨
      (start + 4 * (e - start) / 5 + 2 ≤ breakEnd text start e ∧
        breakEnd text start e ≤ e) := by
  have hchl : ((text.drop start).take (e - start)).length = e - start := by
    simp only [List.length_take, List.length_drop]
    omega
  simp only [breakEnd, hchl]
  set st := ((text.drop start).take (e - start)).drop (4 * (e - start) / 5) with hst
  have hstlen : st.length = (e - start) - 4 * (e - start) / 5 := by
    rw [hst]
    simp only [List.length_drop, hchl]
  rcases hgl : (scanMatchEnds (st.length + 1) st 0).getLast? with _ | m
  · left
    simp only [hgl]
  · right
    have hmem : m ∈ scanMatchEnds (st.length + 1) st 0 := by
      obtain ⟨hne, rfl⟩ := List.mem_getLast?_eq_getLast hgl
      exact List.getLast_mem hne
    have hb := scanMatchEnds_bounds _ _ _ _ hmem
    rw [hstlen] at hb
    simp only [hgl]
    omega

theorem chunkSpansAux_covers (text : List Char) (cs ov : Nat)
    (hov : ov < cs) (hovL : ov < text.length)
    (hbig : cs ≤ 4 * cs / 5 + 2 + ov) :
    ∀ fuel start, start < text.length → text.length - start < fuel →
      ∀ i, start ≤ i → i < text.length →
        ∃ sp ∈ chunkSpansAux text cs ov start fuel, sp.1 ≤ i ∧ i < sp.2 := by
  intro fuel
  induction fuel with
  | zero => intro start _ h2; omega
  | succ fuel ih =>
    intro start hstart hfuel i hi hiL
    simp only [chunkSpansAux, if_pos hstart]
    have hetrich : ov < min (start + cs) text.length := by omega
    by_cases hbr : text.length - ov ≤ min (start + cs) text.length - ov
    · -- break branch: the last window reaches the end of the text
      have heL : min (start + cs) text.length = text.length := by omega
      rw [if_pos hbr]
      refine ⟨(start, if min (start + cs) text.length < text.length
        then breakEnd text start (min (start + cs) text.length)
        else min (start + cs) text.length), List.mem_cons_self _ _, hi, ?_⟩
      rw [if_neg (by omega)]
      omega
    · -- continue branch: the window is a full-length interior window
      rw [if_neg hbr]
      have heL : min (start + cs) text.length < text.length := by omega
      have hecs : min (start + cs) text.length = start + cs := by omega
      have hae := breakEnd_lower text start (min (start + cs) text.length)
        (by omega) (by omega)
      rw [if_pos heL]
      by_cases hcov : i < breakEnd text start (min (start + cs) text.length)
      · exact ⟨(start, breakEnd text start (min (start + cs) text.length)),
          List.mem_cons_self _ _, hi, hcov⟩
      · have hs2 : min (start + cs) text.length - ov ≤ i := by
          rcases hae with hae | hae <;> omega
        obtain ⟨sp, hsp, hsp1, hsp2⟩ := ih (min (start + cs) text.length - ov)
          (by omega) (by omega) i hs2 hiL
        exact ⟨sp, List.mem_cons_of_mem _ hsp, hsp1, hsp2⟩

/-- C1 (amended): for every valid configuration with
`chunkSize ≤ 4*chunkSize/5 + 2 + overlap` (the overlap at least covers the
largest possible sentence-boundary shrink, e.g. the default `(1000, 200)`),
the chunk spans of `chunk_document` cover the entire input.  For smaller
overlaps a chunk shortened at a sentence boundary can leave a gap
(`chunk_gap_counterexample`). -/
theorem chunkSpans_cover (text : List Char) (cs ov : Nat)
    (hov : ov < cs) (hbig : cs ≤ 4 * cs / 5 + 2 + ov) :
    ∀ i, i < text.length → ∃ sp ∈ chunkSpans text cs ov, sp.1 ≤ i ∧ i < sp.2 := by
  intro i hi
  unfold chunkSpans
  by_cases hL : text.length ≤ cs
  · rw [if_pos hL]
    exact ⟨(0, text.length), List.mem_singleton_self _, Nat.zero_le _, hi⟩
  · rw [if_neg hL]
    exact chunkSpansAux_covers text cs ov hov (by omega) hbig
      (text.length + 1) 0 (by omega) (by omega) i (Nat.zero_le _) hi

/-- Witness for `chunkSpans_cover` at the default `(1000, 200)`
configuration. -/
theorem chunkSpans_cover_witness :
    ∃ sp ∈ chunkSpans (String.toList "ab") 1000 200, sp.1 ≤ 0 ∧ 0 < sp.2 :=
  chunkSpans_cover (String.toList "ab") 1000 200 (by decide) (by decide) 0 (by decide)

/-- C1 counterexample: with the valid configuration `chunkSize = 20`,
`overlap = 0` and a 26-character input whose sentence terminator sits at
position 16 (inside the final 20% of the first window), the first chunk is
shortened to `[0, 18)` but the next window still starts at `20`, so positions
18 and 19 of the input are covered by no chunk. -/
theorem chunk_gap_counterexample :
    20 < gapText.length ∧
    chunkSpans gapText 20 0 = [(0, 18), (20, 26)] ∧
    coversB (chunkSpans gapText 20 0) gapText.length = false := by decide

/-- C2 (amended): the chunk boundaries are a pure function of
`(text, chunkSize, overlap)` — they do not depend on the `uuid4` draws, so two
runs on identical input produce identical boundaries. -/
theorem chunk_boundaries_deterministic (text : List Char) (cs ov : Nat) (docId : String)
    (u1 u2 : Nat → String) :
    (chunkRecords text cs ov docId u1).map (fun r => (r.start_pos, r.end_pos)) =
    (chunkRecords text cs ov docId u2).map (fun r => (r.start_pos, r.end_pos)) := by
  simp [chunkRecords]

/-- C2 counterexample: chunk ids embed the fresh random `uuid4().hex[:8]`
suffix, so two runs of `chunk_document` on the identical
`(text, 1000, 200)` input and document id produce different chunk ids. -/
theorem chunk_ids_differ_across_runs :
    (chunkRecords (String.toList "hello.") 1000 200 "doc"
      (fun _ => "aaaaaaaa")).map (fun r => r.chunk_id) ≠
    (chunkRecords (String.toList "hello.") 1000 200 "doc"
      (fun _ => "bbbbbbbb")).map (fun r => r.chunk_id) := by decide

/-! ## Circuit breaker and resilient call (`src/utils/resilience.py`) -/

/-- Circuit-breaker states (`CircuitState`). -/
inductive CircState
  | closed
  | opened
  | halfOpen
deriving DecidableEq

/-- Circuit-breaker configuration (`CircuitBreakerConfig`); the recovery
timeout is an exact instant count. -/
structure CBConfig where
  failure_threshold : Nat
  recovery_timeout : Int
  success_threshold : Nat
deriving DecidableEq

/-- Mutable breaker state (`CircuitBreaker.__init__`). -/
structure CBState where
  state : CircState
  failure_count : Nat
  success_count : Nat
  last_failure_time : Int
deriving DecidableEq

/-- Result of one call through the breaker: `rejected` means the breaker
raised without invoking the wrapped function. -/
inductive CallOutcome
  | rejected
  | succeeded
  | failed
deriving DecidableEq

/-- Initial breaker state: `CLOSED`, zero counters. -/
def cbInitial : CBState := ⟨.closed, 0, 0, 0⟩

/-- `CircuitBreaker._on_success`. -/
def cbOnSuccess (cfg : CBConfig) (s : CBState) : CBState :=
  match s.state with
  | .halfOpen =>
    if cfg.success_threshold ≤ s.success_count + 1 then
      { s with state := .closed, failure_count := 0, success_count := 0 }
    else { s with success_count := s.success_count + 1 }
  | .closed => { s with failure_count := 0 }
  | .opened => s

/-- `CircuitBreaker._on_failure`, with `t` the failure instant. -/
def cbOnFailure (cfg : CBConfig) (s : CBState) (t : Int) : CBState :=
  let s1 := { s with failure_count := s.failure_count + 1, last_failure_time := t }
  match s1.state with
  | .halfOpen => { s1 with state := .opened }
  | .closed =>
    if cfg.failure_threshold ≤ s1.failure_count then { s1 with state := .opened } else s1
  | .opened => s1

/-- `CircuitBreaker.call` at instant `t`: when the breaker is `OPEN` and the
recovery timeout has not elapsed it raises without invoking the wrapped
function; otherwise (transitioning `OPEN → HALF_OPEN` when the timeout has
elapsed) the wrapped function runs with outcome `ok`. -/
def cbCall (cfg : CBConfig) (s : CBState) (t : Int) (ok : Bool) : CBState × CallOutcome :=
  if s.state = .opened ∧ t - s.last_failure_time < cfg.recovery_timeout then
    (s, .rejected)
  else
    let s1 := if s.state = .opened then { s with state := .halfOpen } else s
    if ok then (cbOnSuccess cfg s1, .succeeded)
    else (cbOnFailure cfg s1 t, .failed)

/-- `RetryHandler.retry` with the wrapped function's successive outcomes given
by `outcomes` starting at invocation index `k`: returns how many invocations
were made and whether the last one succeeded.  (`max_attempts = 0` never
occurs: the default configuration uses 3.) -/
def retryRun (outcomes : Nat → Bool) (k : Nat) : Nat → Nat × Bool
  | 0 => (0, false)
  | attempts + 1 =>
    if outcomes k then (1, true)
    else if attempts = 0 then (1, false)
    else
      let r := retryRun outcomes (k + 1) attempts
      (r.1 + 1, r.2)

/-- `ResilienceManager.resilient_call`: first the call through the circuit
breaker; on any exception from that path — the breaker's own `OPEN` rejection
or the wrapped function's failure — the bare retry handler around the raw
function.  Returns the breaker state afterwards, the total number of wrapped
function invocations, and the overall success flag. -/
def resilientCall (cfg : CBConfig) (maxAttempts : Nat) (s : CBState) (t : Int)
    (outcomes : Nat → Bool) : CBState × Nat × Bool :=
  let r := cbCall cfg s t (outcomes 0)
  match r.2 with
  | .succeeded => (r.1, 1, true)
  | .rejected =>
    let rr := retryRun outcomes 0 maxAttempts
    (r.1, rr.1, rr.2)
  | .failed =>
    let rr := retryRun outcomes 1 maxAttempts
    (r.1, rr.1 + 1, rr.2)

/-- C3 (amended): the breaker follows the claimed state machine except that
`success_count` is not reset when `HalfOpen` is entered or when a `HalfOpen`
failure reopens the circuit: it is cleared only when the breaker closes.
Hence `HalfOpen → Closed` fires as soon as the *cumulative* count of
`HalfOpen` successes since the breaker last closed reaches
`successThreshold`, not necessarily `successThreshold` consecutive successes
within the current `HalfOpen` episode. -/
theorem cbCall_state_machine (cfg : CBConfig) (s : CBState) (t : Int) (ok : Bool) :
    (s.state = .opened → t - s.last_failure_time < cfg.recovery_timeout →
      cbCall cfg s t ok = (s, .rejected)) ∧
    (s.state = .closed → ok = true →
      cbCall cfg s t ok = ({ s with failure_count := 0 }, .succeeded)) ∧
    (s.state = .closed → ok = false →
      cbCall cfg s t ok =
        ((if cfg.failure_threshold ≤ s.failure_count + 1
          then ⟨.opened, s.failure_count + 1, s.success_count, t⟩
          else ⟨.closed, s.failure_count + 1, s.success_count, t⟩ : CBState), .failed)) ∧
    (s.state = .halfOpen → ok = true →
      cbCall cfg s t ok =
        ((if cfg.success_threshold ≤ s.success_count + 1
          then ⟨.closed, 0, 0, s.last_failure_time⟩
          else ⟨.halfOpen, s.failure_count, s.success_count + 1,
            s.last_failure_time⟩ : CBState), .succeeded)) ∧
    (s.state = .halfOpen → ok = false →
      cbCall cfg s t ok =
        (⟨.opened, s.failure_count + 1, s.success_count, t⟩, .failed)) ∧
    (s.state = .opened → cfg.recovery_timeout ≤ t - s.last_failure_time →
      cbCall cfg s t ok = cbCall cfg { s with state := .halfOpen } t ok) := by
  obtain ⟨st, fc, sc, lf⟩ := s
  refine ⟨?_, ?_, ?_, ?_, ?_, ?_⟩ <;> intro h1 h2 <;>
    simp_all [cbCall, cbOnSuccess, cbOnFailure]

/-- Witness for `cbCall_state_machine`: a successful call in `Closed` resets
the failure count and stays `Closed`. -/
theorem cbCall_state_machine_witness :
    cbCall ⟨5, 60, 3⟩ ⟨.closed, 2, 0, 0⟩ 7 true = (⟨.closed, 0, 0, 0⟩, .succeeded) :=
  (cbCall_state_machine ⟨5, 60, 3⟩ ⟨.closed, 2, 0, 0⟩ 7 true).2.1 rfl rfl

/-- C3 counterexample: with `failureThreshold = 1`, `recoveryTimeout = 0` and
`successThreshold = 2`, the trace fail, success, fail, success closes the
breaker on the fourth call: the final `HalfOpen` episode contains a single
success, because the success counted in the earlier episode was never
cleared. -/
theorem cb_closes_early_counterexample :
    (cbCall ⟨1, 0, 2⟩
      (cbCall ⟨1, 0, 2⟩
        (cbCall ⟨1, 0, 2⟩ (cbCall ⟨1, 0, 2⟩ cbInitial 0 false).1 1 true).1
        2 false).1 3 true).1.state = .closed ∧
    (cbCall ⟨1, 0, 2⟩
      (cbCall ⟨1, 0, 2⟩ (cbCall ⟨1, 0, 2⟩ cbInitial 0 false).1 1 true).1
      2 false).1 = ⟨.opened, 2, 1, 2⟩ := by decide

/-- C4 (amended): `resilient_call` falls back to the bare retry handler on
*any* exception from the breaker path, not only when the breaker is open: a
`rejected` breaker call (open circuit, function not invoked) starts retry at
the first invocation, while a plain function failure under a `Closed` or
`HalfOpen` breaker — whose failure is still recorded in the breaker state —
also triggers the retry handler, after the one breaker-gated invocation. -/
theorem resilientCall_fallback_on_any_error (cfg : CBConfig) (maxAttempts : Nat)
    (s : CBState) (t : Int) (outcomes : Nat → Bool) :
    ((cbCall cfg s t (outcomes 0)).2 = .succeeded →
      resilientCall cfg maxAttempts s t outcomes = ((cbCall cfg s t (outcomes 0)).1, 1, true)) ∧
    ((cbCall cfg s t (outcomes 0)).2 = .rejected →
      resilientCall cfg maxAttempts s t outcomes =
        (s, (retryRun outcomes 0 maxAttempts).1, (retryRun outcomes 0 maxAttempts).2)) ∧
    ((cbCall cfg s t (outcomes 0)).2 = .failed →
      resilientCall cfg maxAttempts s t outcomes =
        ((cbCall cfg s t (outcomes 0)).1,
          (retryRun outcomes 1 maxAttempts).1 + 1, (retryRun outcomes 1 maxAttempts).2)) := by
  have hrej : (cbCall cfg s t (outcomes 0)).2 = .rejected →
      (cbCall cfg s t (outcomes 0)).1 = s := by
    intro h
    by_cases hc : s.state = CircState.opened ∧ t - s.last_failure_time < cfg.recovery_timeout
    · simp [cbCall, hc]
    · exfalso
      simp only [cbCall, if_neg hc] at h
      split at h <;> simp_all
  refine ⟨?_, ?_, ?_⟩ <;> intro h
  · simp [resilientCall, h]
  · simp [resilientCall, h, hrej h]
  · simp [resilientCall, h]

/-- Witness for `resilientCall_fallback_on_any_error`: an open breaker inside
its recovery window rejects without invoking the function, and the retry
handler's first attempt succeeds. -/
theorem resilientCall_fallback_witness :
    resilientCall ⟨5, 60, 3⟩ 3 ⟨.opened, 5, 0, 0⟩ 10 (fun _ => true) =
      (⟨.opened, 5, 0, 0⟩, 1, true) :=
  (resilientCall_fallback_on_any_error ⟨5, 60, 3⟩ 3 ⟨.opened, 5, 0, 0⟩ 10
    (fun _ => true)).2.1 rfl

/-- C4 counterexample: with a fresh `Closed` breaker (default configuration
`failureThreshold = 5`) and an always-failing function, `resilient_call`
invokes the function four times — once through the breaker and three more in
the retry fallback — although the breaker never reported itself open; the
claim says the single failure should have propagated with no retry. -/
theorem resilient_retries_on_closed_failure :
    cbInitial.state = .closed ∧
    (cbCall ⟨5, 60, 3⟩ cbInitial 0 false).2 = .failed ∧
    resilientCall ⟨5, 60, 3⟩ 3 cbInitial 0 (fun _ => false) =
      (⟨.closed, 1, 0, 0⟩, 4, false) := by decide

/-! ## Embedding service (`src/services/embedding_service.py`) -/

/-- Memory-usage threshold of `EmbeddingService` (`0.8`, a fraction of total
memory), with the utilization readings modelled as exact rationals. -/
def memThreshold : ℚ := 4 / 5

/-- The body of `EmbeddingService._check_memory_usage` inside its `try`
block: above the threshold a collection pass runs, and if the post-collection
reading is still above the threshold an `EmbeddingServiceError` is raised. -/
def checkMemoryInner (threshold usageBefore usageAfterGc : ℚ) : Except String Unit :=
  if threshold < usageBefore then
    if threshold < usageAfterGc then .error "Memory usage too high" else .ok ()
  else .ok ()

/-- `EmbeddingService._check_memory_usage` as observed by its caller: the
enclosing `except Exception` clause catches every exception — including the
`EmbeddingServiceError` deliberately raised inside the `try` block — and only
logs a warning, so the function always returns normally. -/
def checkMemoryUsage (threshold usageBefore usageAfterGc : ℚ) : Except String Unit :=
  match checkMemoryInner threshold usageBefore usageAfterGc with
  | .error _ => .ok ()
  | .ok _ => .ok ()

/-- Python whitespace `strip` on a character list. -/
def stripWs (l : List Char) : List Char :=
  ((l.dropWhile isWs).reverse.dropWhile isWs).reverse

/-- Helper for Python `str.split()`: split on whitespace runs, dropping empty
pieces; `acc` holds the current word reversed. -/
def splitWsAux : List Char → List Char → List (List Char)
  | [], acc => if acc.isEmpty then [] else [acc.reverse]
  | c :: cs, acc =>
    if isWs c then
      if acc.isEmpty then splitWsAux cs [] else acc.reverse :: splitWsAux cs []
    else splitWsAux cs (c :: acc)

/-- Python `str.split()` with no separator argument. -/
def splitWsWords (l : List Char) : List (List Char) := splitWsAux l []

/-- `EmbeddingService._preprocess_text`: strip, truncate to
`max_seq_length * 4` characters, collapse internal whitespace via
`' '.join(text.split())`. -/
def preprocessText (maxLen : Nat) (text : List Char) : List Char :=
  let p := stripWs text
  let p := if maxLen * 4 < p.length then p.take (maxLen * 4) else p
  List.intercalate [' '] (splitWsWords p)

/-- The batch slicing `texts[i:i+batch_size]` of the loop in
`EmbeddingService._generate_embeddings_optimized`; `fuel ≥ length` always
suffices for a positive batch size. -/
def batchesAux {α : Type} (bs : Nat) : Nat → List α → List (List α)
  | 0, _ => []
  | _ + 1, [] => []
  | fuel + 1, l => l.take bs :: batchesAux bs fuel (l.drop bs)

/-- `EmbeddingService._generate_embeddings_optimized` with the model's
encoder abstracted as `enc`: encode each slice and concatenate
(`np.vstack`).  The periodic `_check_memory_usage` call is omitted because it
never raises (see `checkMemoryUsage`), so it does not affect the value. -/
def generateOptimized {β : Type} (enc : List Char → β) (texts : List (List Char))
    (bs : Nat) : List β :=
  ((batchesAux bs texts.length texts).map (List.map enc)).flatten

/-- `EmbeddingService.get_embeddings_batch`: empty input returns `[]`;
otherwise every text is preprocessed, texts that became empty are filtered
out, an error is raised only when *none* survive, and the survivors are
encoded in batches. -/
def getEmbeddingsBatch {β : Type} (maxLen : Nat) (enc : List Char → β)
    (texts : List (List Char)) (bs : Nat) : Except String (List β) :=
  if texts = [] then .ok []
  else if (texts.map (preprocessText maxLen)).filter (fun tx => !(stripWs tx).isEmpty) = [] then
    .error "No valid texts after preprocessing"
  else
    .ok (generateOptimized enc
      ((texts.map (preprocessText maxLen)).filter (fun tx => !(stripWs tx).isEmpty)) bs)

/-- The memory tier of `EmbeddingService._get_optimal_batch_size`. -/
def memBaseBatchSize (availableGb : ℚ) : Nat :=
  if 8 < availableGb then 64
  else if 4 < availableGb then 32
  else if 2 < availableGb then 16
  else 8

/-- `EmbeddingService._get_optimal_batch_size`. -/
def getOptimalBatchSize (availableGb : ℚ) (numTexts : Nat) : Nat :=
  if numTexts < 100 then min (memBaseBatchSize availableGb) numTexts
  else if numTexts < 1000 then min (memBaseBatchSize availableGb * 2) numTexts
  else min (memBaseBatchSize availableGb * 4) numTexts

/-- Spec-side restatement of the adaptive batch size, following the claim's
words: a memory-tier base, scaled by 1, 2 or 4 as the input count passes
100 and 1000, always capped at the number of input texts. -/
def batchSizeSpec (availableGb : ℚ) (numTexts : Nat) : Nat :=
  min (memBaseBatchSize availableGb *
    (if numTexts < 100 then 1 else if numTexts < 1000 then 2 else 4)) numTexts

/-- C5: at a memory reading of 95% both before and after the collection
pass — above the 80% threshold — the `try` body of `_check_memory_usage`
raises `EmbeddingServiceError` exactly as its docstring promises, but the
function's own `except Exception` clause swallows that error and returns
normally, so the embedding call continues instead of failing. -/
theorem checkMemory_error_swallowed :
    checkMemoryInner memThreshold (95 / 100) (95 / 100) = .error "Memory usage too high" ∧
    checkMemoryUsage memThreshold (95 / 100) (95 / 100) = .ok () := by
  have h : memThreshold < 95 / 100 := by norm_num [memThreshold]
  constructor
  · simp [checkMemoryInner, h]
  · simp [checkMemoryUsage, checkMemoryInner, h]

theorem batchesAux_join {α β : Type} (f : α → β) (bs : Nat) (hbs : 0 < bs) :
    ∀ fuel (l : List α), l.length ≤ fuel →
      ((batchesAux bs fuel l).map (List.map f)).flatten = l.map f := by
  intro fuel
  induction fuel with
  | zero =>
    intro l hl
    have : l = [] := List.eq_nil_of_length_eq_zero (by omega)
    subst this
    simp [batchesAux]
  | succ fuel ih =>
    intro l hl
    match l with
    | [] => simp [batchesAux]
    | x :: xs =>
      show (((x :: xs).take bs :: batchesAux bs fuel ((x :: xs).drop bs)).map
          (List.map f)).flatten = (x :: xs).map f
      simp only [List.map_cons, List.flatten_cons]
      rw [ih ((x :: xs).drop bs) (by simp only [List.length_drop]; omega)]
      rw [← List.map_append, List.take_append_drop]
      rfl

theorem generateOptimized_eq {β : Type} (enc : List Char → β) (ts : List (List Char))
    (bs : Nat) (hbs : 0 < bs) : generateOptimized enc ts bs = ts.map enc := by
  unfold generateOptimized
  exact batchesAux_join enc bs hbs ts.length ts le_rfl

/-- C6 (amended): `get_embeddings_batch` is order-preserving and 1:1 with the
texts that remain non-empty after preprocessing; a text that becomes empty is
silently dropped from the output, and the call is rejected as an error only
when *every* text becomes empty (an empty input list yields `[]`). -/
theorem getEmbeddingsBatch_valid_texts {β : Type} (maxLen : Nat) (enc : List Char → β)
    (texts : List (List Char)) (bs : Nat) (hbs : 0 < bs) :
    ((texts.map (preprocessText maxLen)).filter (fun tx => !(stripWs tx).isEmpty) ≠ [] →
      getEmbeddingsBatch maxLen enc texts bs =
        .ok (((texts.map (preprocessText maxLen)).filter
          (fun tx => !(stripWs tx).isEmpty)).map enc)) ∧
    (texts ≠ [] →
      (texts.map (preprocessText maxLen)).filter (fun tx => !(stripWs tx).isEmpty) = [] →
      getEmbeddingsBatch maxLen enc texts bs = .error "No valid texts after preprocessing") := by
  constructor
  · intro hv
    have hne : texts ≠ [] := by
      rintro rfl
      simp at hv
    unfold getEmbeddingsBatch
    rw [if_neg hne, if_neg hv, generateOptimized_eq enc _ bs hbs]
  · intro hne hv
    unfold getEmbeddingsBatch
    rw [if_neg hne, if_pos hv]

/-- Witness for `getEmbeddingsBatch_valid_texts`: one surviving text is
encoded 1:1. -/
theorem getEmbeddingsBatch_valid_texts_witness :
    getEmbeddingsBatch 512 (fun tx => tx.length) [[ 'a' ]] 1 =
      .ok ((([[ 'a' ]].map (preprocessText 512)).filter
        (fun tx => !(stripWs tx).isEmpty)).map (fun tx => tx.length)) :=
  (getEmbeddingsBatch_valid_texts 512 (fun tx => tx.length) [[ 'a' ]] 1
    (by decide)).1 (by decide)

/-- C6 counterexample: in the batch `["hi", " "]` the second text becomes
empty after preprocessing, yet `get_embeddings_batch` neither raises nor
keeps the 1:1 correspondence — it silently drops the text and returns a
single vector for the two inputs. -/
theorem embeddings_batch_skips_empty :
    preprocessText 512 [' '] = [] ∧
    getEmbeddingsBatch 512 (fun tx => tx.length) [[ 'h', 'i' ], [ ' ' ]] 32 =
      .ok [2] := by decide

/-- C9: `_get_optimal_batch_size` computes exactly the claimed function: a
base of 64/32/16/8 by the >8GB/>4GB/>2GB memory tiers, scaled ×1 below 100
texts, ×2 from 100 to 999 and ×4 from 1000, capped at the input count. -/
theorem optimal_batch_size_spec (g : ℚ) (n : Nat) :
    getOptimalBatchSize g n = batchSizeSpec g n := by
  unfold getOptimalBatchSize batchSizeSpec
  by_cases h1 : n < 100
  · simp [h1]
  · by_cases h2 : n < 1000 <;> simp [h1, h2]

/-! ## Rate limiter (`RateLimiter` in `src/api/rate_limiter.py`) -/

/-- One client's token bucket, with tokens and instants as exact rationals. -/
structure Bucket where
  tokens : ℚ
  last_refill : ℚ
deriving DecidableEq

/-- `RateLimiter.is_allowed` for one client at instant `t`: a missing bucket
is created full; elapsed time refills at `requests_per_minute / 60` tokens
per second up to `burst_size`; a grant deducts one token. -/
def rlIsAllowed (rpm burst : ℚ) (b? : Option Bucket) (t : ℚ) : Bool × Bucket :=
  let b := b?.getD ⟨burst, t⟩
  let refilled := min burst (b.tokens + (t - b.last_refill) * (rpm / 60))
  if 1 ≤ refilled then (true, ⟨refilled - 1, t⟩) else (false, ⟨refilled, t⟩)

/-- A sequence of `is_allowed` checks for one client at the given instants,
threading the bucket. -/
def rlRun (rpm burst : ℚ) : List ℚ → Option Bucket → List Bool
  | [], _ => []
  | t :: ts, b? =>
    (rlIsAllowed rpm burst b? t).1 ::
      rlRun rpm burst ts (some (rlIsAllowed rpm burst b? t).2)

/-- C7: a limiter at 60 requests/minute with burst 10, starting from a fresh
(full) bucket, grants exactly the first 10 instantaneous requests and rejects
the 11th; one second later a further request is granted; and every grant
deducts exactly one token from the refilled balance. -/
theorem token_bucket_60rpm_burst10 :
    rlRun 60 10 (List.replicate 11 (0 : ℚ) ++ [1]) none =
      List.replicate 10 true ++ [false, true] ∧
    (∀ rpm burst : ℚ, ∀ b : Bucket, ∀ t : ℚ,
      (rlIsAllowed rpm burst (some b) t).1 = true →
      (rlIsAllowed rpm burst (some b) t).2.tokens =
        min burst (b.tokens + (t - b.last_refill) * (rpm / 60)) - 1) := by
  constructor
  · norm_num [rlRun, rlIsAllowed, List.replicate, min_def]
  · intro rpm burst b t h
    simp only [rlIsAllowed, Option.getD_some] at h ⊢
    split at h
    · rename_i hc
      rw [if_pos hc]
    · simp at h

/-- Witness for `token_bucket_60rpm_burst10`: the first grant from a full
bucket leaves nine tokens. -/
theorem token_bucket_witness :
    (rlIsAllowed 60 10 (some ⟨10, 0⟩) 0).2.tokens =
      min 10 ((10 : ℚ) + (0 - 0) * (60 / 60)) - 1 :=
  token_bucket_60rpm_burst10.2 60 10 ⟨10, 0⟩ 0 (by norm_num [rlIsAllowed, min_def])

/-! ## Cache service (`CacheService` in `src/services/cache_service.py`) -/

/-- A cache entry (`{value, expires_at, created_at}`). -/
structure CacheItem (α : Type) where
  value : α
  expires_at : ℚ
  created_at : ℚ
deriving DecidableEq

/-- The cache's `OrderedDict`, as an entry list with unique keys, oldest
(least recently used) first. -/
abbrev CacheMap (α : Type) := List (String × CacheItem α)

/-- Key lookup (`key in self._cache` / `self._cache[key]`). -/
def cacheLookup {α : Type} (c : CacheMap α) (k : String) : Option (CacheItem α) :=
  (c.find? (fun p => p.1 == k)).map (fun p => p.2)

/-- `del self._cache[key]`. -/
def cacheRemove {α : Type} (c : CacheMap α) (k : String) : CacheMap α :=
  c.filter (fun p => p.1 != k)

/-- `CacheService.get` at instant `now`: a missing key is a miss; an entry
past its `expires_at` is deleted and reported as a miss; otherwise the entry
moves to the most-recent end and its value is returned. -/
def cacheGet {α : Type} (c : CacheMap α) (k : String) (now : ℚ) :
    Option α × CacheMap α :=
  match c.find? (fun p => p.1 == k) with
  | none => (none, c)
  | some p =>
    if p.2.expires_at < now then (none, cacheRemove c k)
    else (some p.2.value, cacheRemove c k ++ [(k, p.2)])

/-- The `while len(self._cache) > self.max_size: self._evict_oldest()` loop
of `CacheService.set`; `fuel ≥ length` always suffices. -/
def evictToSize {α : Type} (maxSize : Nat) : Nat → CacheMap α → CacheMap α
  | 0, c => c
  | fuel + 1, c => if maxSize < c.length then evictToSize maxSize fuel c.tail else c

/-- `CacheService.set` at instant `now`: the memory check proactively evicts
a quarter of the entries when the reading `memHigh` is above threshold, an
existing binding of the key is removed, the new entry is appended at the
most-recent end, and oldest entries are evicted until the size bound holds. -/
def cacheSet {α : Type} (maxSize : Nat) (memHigh : Bool) (c : CacheMap α)
    (k : String) (v : α) (ttl now : ℚ) : CacheMap α :=
  let c1 := if memHigh then c.drop (max 1 (c.length / 4)) else c
  let c2 := cacheRemove c1 k ++ [(k, ⟨v, now + ttl, now⟩)]
  evictToSize maxSize c2.length c2

theorem cacheLookup_remove {α : Type} (c : CacheMap α) (k : String) :
    cacheLookup (cacheRemove c k) k = none := by
  unfold cacheLookup cacheRemove
  have hf : (c.filter (fun p => p.1 != k)).find? (fun p => p.1 == k) = none := by
    rw [List.find?_eq_none]
    intro p hp
    have h := (List.mem_filter.mp hp).2
    simp only [bne_iff_ne, ne_eq] at h
    simp [h]
  rw [hf]
  rfl

theorem evictToSize_le {α : Type} (maxSize : Nat) :
    ∀ fuel (c : CacheMap α), c.length - maxSize ≤ fuel →
      (evictToSize maxSize fuel c).length ≤ maxSize := by
  intro fuel
  induction fuel with
  | zero =>
    intro c h
    simp only [evictToSize]
    omega
  | succ fuel ih =>
    intro c h
    simp only [evictToSize]
    split
    · exact ih c.tail (by simp only [List.length_tail]; omega)
    · omega

/-- C8: the `CacheEntry` invariant holds under the cache's operations — an
entry whose `expires_at` has passed is not observable through `get` (the read
is a miss and removes the entry), and after every `set` the number of live
entries is at most the configured `max_size`. -/
theorem cache_invariants {α : Type} (c : CacheMap α) (k : String) (now : ℚ)
    (item : CacheItem α) (maxSize : Nat) (memHigh : Bool) (v : α) (ttl : ℚ) :
    (cacheLookup c k = some item → item.expires_at < now →
      (cacheGet c k now).1 = none ∧ cacheLookup (cacheGet c k now).2 k = none) ∧
    (cacheSet maxSize memHigh c k v ttl now).length ≤ maxSize := by
  constructor
  · intro hl hexp
    unfold cacheLookup at hl
    cases hfind : c.find? (fun p => p.1 == k) with
    | none => rw [hfind] at hl; simp at hl
    | some p =>
      rw [hfind] at hl
      simp only [Option.map_some', Option.some.injEq] at hl
      have hpe : p.2.expires_at < now := by rw [hl]; exact hexp
      have key : cacheGet c k now = (none, cacheRemove c k) := by
        unfold cacheGet
        rw [hfind]
        exact if_pos hpe
      rw [key]
      exact ⟨rfl, cacheLookup_remove c k⟩
  · simp only [cacheSet]
    exact evictToSize_le maxSize _ _ (by omega)

/-- Witness for `cache_invariants`: a read of an entry that expired at
instant 1, performed at instant 2, misses and removes it; a `set` into a
bound-5 cache stays within the bound. -/
theorem cache_invariants_witness :
    ((cacheGet [("a", (⟨0, 1, 0⟩ : CacheItem Nat))] "a" 2).1 = none ∧
      cacheLookup (cacheGet [("a", (⟨0, 1, 0⟩ : CacheItem Nat))] "a" 2).2 "a" = none) ∧
    (cacheSet 5 false [("a", (⟨0, 1, 0⟩ : CacheItem Nat))] "a" 7 10 2).length ≤ 5 :=
  ⟨(cache_invariants [("a", ⟨0, 1, 0⟩)] "a" 2 ⟨0, 1, 0⟩ 5 false 7 10).1 rfl
      (by norm_num),
    (cache_invariants [("a", ⟨0, 1, 0⟩)] "a" 2 ⟨0, 1, 0⟩ 5 false 7 10).2⟩

/-- `CacheService.get` as seen from Python, where a stored `None`
(`value = none`) and a miss are the same observable result. -/
def pyGet {α : Type} (c : CacheMap (Option α)) (k : String) (now : ℚ) :
    Option α × CacheMap (Option α) :=
  ((cacheGet c k now).1.bind id, (cacheGet c k now).2)

/-- `CacheService.get_or_set`: a non-`None` cached value is returned as is;
otherwise the factory runs and its value is cached.  If anything in that
`try` block raises — in particular the factory itself — the `except` clause
invokes the factory a second time and returns (or raises) its result,
uncached.  `factory n` is the outcome of the n-th factory invocation; the
third component counts factory invocations. -/
def getOrSet {α ε : Type} (maxSize : Nat) (memHigh : Bool) (c : CacheMap (Option α))
    (k : String) (factory : Nat → Except ε (Option α)) (ttl now : ℚ) :
    Except ε (Option α) × CacheMap (Option α) × Nat :=
  match (pyGet c k now).1 with
  | some v => (.ok (some v), (pyGet c k now).2, 0)
  | none =>
    match factory 0 with
    | .ok v => (.ok v, cacheSet maxSize memHigh (pyGet c k now).2 k v ttl now, 1)
    | .error _ =>
      match factory 1 with
      | .ok v => (.ok v, (pyGet c k now).2, 2)
      | .error e => (.error e, (pyGet c k now).2, 2)

/-- C10: a cached `None` is indistinguishable from a miss at the public
interface — `get` returns `None` for a stored `None` exactly as for an absent
key, so `get_or_set` re-invokes its factory on every such call; and when the
factory raises inside `get_or_set`, the factory is invoked a second time
before any error can propagate. -/
theorem cached_none_is_miss {α ε : Type} (c : CacheMap (Option α)) (k : String)
    (now ttl : ℚ) (maxSize : Nat) (memHigh : Bool)
    (factory : Nat → Except ε (Option α)) (item : CacheItem (Option α))
    (e1 e2 : ε) (v : Option α) :
    (cacheLookup c k = some item → item.value = none → (pyGet c k now).1 = none) ∧
    ((pyGet c k now).1 = none →
      1 ≤ (getOrSet maxSize memHigh c k factory ttl now).2.2) ∧
    ((pyGet c k now).1 = none → factory 0 = .error e1 → factory 1 = .ok v →
      getOrSet maxSize memHigh c k factory ttl now = (.ok v, (pyGet c k now).2, 2)) ∧
    ((pyGet c k now).1 = none → factory 0 = .error e1 → factory 1 = .error e2 →
      getOrSet maxSize memHigh c k factory ttl now =
        (.error e2, (pyGet c k now).2, 2)) := by
  refine ⟨?_, ?_, ?_, ?_⟩
  · intro hl hv
    unfold cacheLookup at hl
    cases hfind : c.find? (fun p => p.1 == k) with
    | none => rw [hfind] at hl; simp at hl
    | some p =>
      rw [hfind] at hl
      simp only [Option.map_some', Option.some.injEq] at hl
      by_cases hpe : p.2.expires_at < now
      · have key : cacheGet c k now = (none, cacheRemove c k) := by
          unfold cacheGet
          rw [hfind]
          exact if_pos hpe
        simp [pyGet, key]
      · have key : cacheGet c k now =
            (some p.2.value, cacheRemove c k ++ [(k, p.2)]) := by
          unfold cacheGet
          rw [hfind]
          exact if_neg hpe
        simp [pyGet, key, hl, hv]
  · intro h
    unfold getOrSet
    rw [h]
    cases hf0 : factory 0 with
    | ok w => simp
    | error e => cases hf1 : factory 1 <;> simp
  · intro h hf0 hf1
    unfold getOrSet
    rw [h, hf0, hf1]
  · intro h hf0 hf1
    unfold getOrSet
    rw [h, hf0, hf1]

/-- Witness for `cached_none_is_miss`: with a live stored `None` under key
`"a"`, the read misses, and a factory failing once then succeeding is invoked
twice with its second result returned. -/
theorem cached_none_is_miss_witness :
    getOrSet 5 false [("a", (⟨none, 10, 0⟩ : CacheItem (Option Nat)))] "a"
        (fun n => if n = 0 then Except.error "boom" else .ok (some 7)) 3 1 =
      (.ok (some 7),
        (pyGet [("a", (⟨none, 10, 0⟩ : CacheItem (Option Nat)))] "a" 1).2, 2) :=
  (cached_none_is_miss [("a", ⟨none, 10, 0⟩)] "a" 1 3 5 false
    (fun n => if n = 0 then Except.error "boom" else .ok (some 7))
    ⟨none, 10, 0⟩ "boom" "unused" (some 7)).2.2.1
    (by norm_num [pyGet, cacheGet, cacheRemove]) rfl rfl

end PolicyPilot
